import Mathlib

/-!
Verification of the rotation scheduler in `bot.py`.

The Python functions are embedded shallowly:

* Python's `str.casefold` (a pure Unicode normalisation) is abstracted as a
  function parameter `cf : String → String`; every theorem is universally
  quantified over it, so it holds for the real casefold in particular.
  Likewise `norm` stands for `lambda t: extract_task_name(t).casefold()`,
  the task-label normalisation used by `save_history` and `assign_operations`.
* `random.sample`, `random.choice` and `random.shuffle` are abstracted as
  function parameters `sample`, `choice`, `shuffle`; the predicates
  `SampleSpec`, `ChoiceSpec`, `ShuffleSpec` state exactly what the Python
  library guarantees (a sample is a duplicate-free draw from the list, a
  choice is a member, a shuffle is a permutation), and the theorems are
  quantified over all functions satisfying them.
* Python dicts are modelled as association lists with insertion-order keys
  and overwrite-on-repeated-key semantics (`dictInsert`).
* The history file is modelled by `FileState`: missing, unreadable (OSError),
  not JSON (JSONDecodeError), or parsed to a JSON value `JsonVal`.
  Exceptions escaping a function are modelled with `Except PyErr`.
-/

namespace RotationBot

/-- A parsed JSON value, the result of a successful `json.loads`. -/
inductive JsonVal : Type
  | null : JsonVal
  | bool (b : Bool) : JsonVal
  | num (n : Int) : JsonVal
  | str (s : String) : JsonVal
  | arr (elems : List JsonVal) : JsonVal
  | obj (fields : List (String × JsonVal)) : JsonVal

/-- Python exception kinds that can escape the embedded functions. -/
inductive PyErr : Type
  | valueError (msg : String)
  | typeError
  | attributeError

/-- Observable states of the history file when `load_history` runs. -/
inductive FileState : Type
  | missing
  | readError
  | badJson
  | parsed (j : JsonVal)

/-- Python `dict.get` on a parsed JSON object: the binding for the key if
present, else the default (a parsed dict has unique keys). -/
def jsonGet (fields : List (String × JsonVal)) (key : String) (d : JsonVal) : JsonVal :=
  match fields.find? (fun kv => decide (kv.1 = key)) with
  | some kv => kv.2
  | none => d

/-- Python `value[-2:]` on a JSON-decoded value: defined for lists and
strings, a `TypeError` for every other decoded type. -/
def sliceLast2 : JsonVal → Except PyErr JsonVal
  | .arr l => .ok (.arr (l.drop (l.length - 2)))
  | .str s => .ok (.str (s.drop (s.length - 2)))
  | _ => .error .typeError

/-- `load_history` (bot.py lines 85-97).  A missing file, an `OSError` and a
`json.JSONDecodeError` all yield the defaults `([], {})`.  A successfully
parsed value is read with `data.get("last_selections", [])[-2:]` and
`data.get("last_ops", {})`; calling `.get` on a non-dict raises
`AttributeError` and slicing a non-sliceable raises `TypeError`, neither of
which is caught by the `except (json.JSONDecodeError, OSError)` clause. -/
def load_history : FileState → Except PyErr (JsonVal × List (String × JsonVal))
  | .missing => .ok (.arr [], [])
  | .readError => .ok (.arr [], [])
  | .badJson => .ok (.arr [], [])
  | .parsed (.obj fields) =>
    (sliceLast2 (jsonGet fields "last_selections" (.arr []))).map (fun selections =>
      (selections,
        match jsonGet fields "last_ops" (.obj []) with
        | .obj m => m
        | _ => []))
  | .parsed _ => .error .attributeError

/-- `(history + [selected])[-2:]` — the new-history expression of
`save_history` (bot.py line 102). -/
def newHistory (history : List (List String)) (selected : List String) : List (List String) :=
  (history ++ [selected]).drop ((history ++ [selected]).length - 2)

/-- JSON encoding of the `last_selections` field written by `save_history`. -/
def encodeSelections (h : List (List String)) : JsonVal :=
  .arr (h.map (fun sel => .arr (sel.map JsonVal.str)))

/-- JSON encoding of the `last_ops` field written by `save_history`. -/
def encodeOps (ops : List (String × List String)) : JsonVal :=
  .obj (ops.map (fun pt => (pt.1, JsonVal.arr (pt.2.map JsonVal.str))))

/-- Python truthiness of the optional `assignments` dict argument:
`None` and `{}` are falsy, a non-empty dict is truthy. -/
def pyTruthy : Option (List (String × List String)) → Bool
  | none => false
  | some l => !l.isEmpty

/-- `save_history` (bot.py lines 100-112), returning the JSON value written
to the file.  `norm` is `lambda t: extract_task_name(t).casefold()`. -/
def save_history (norm : String → String) (selected : List String)
    (history : List (List String))
    (assignments : Option (List (String × List String)))
    (prev_ops : Option (List (String × List String))) : JsonVal :=
  let ops := if pyTruthy assignments then
      (assignments.getD []).map (fun pt => (pt.1, pt.2.map norm))
    else prev_ops.getD []
  .obj [("last_selections", encodeSelections (newHistory history selected)),
        ("last_ops", encodeOps ops)]

/-- `get_excluded_people` (bot.py lines 115-119): people selected in both of
the last 2 runs; empty when fewer than 2 runs are recorded.  The Python set
intersection `set(history[0]) & set(history[1])` is modelled as a filtered
list (only membership in the result is ever used). -/
def get_excluded_people (history : List (List String)) : List String :=
  if history.length < 2 then []
  else (history.headD []).filter (fun p => decide (p ∈ history.tail.headD []))

/-- What Python guarantees about `random.sample(l, k)` for `k ≤ len(l)`:
the result has length `k` and is a draw of `k` distinct positions of `l`
in some order (a sublist of a permutation of `l`). -/
def SampleSpec (sample : List String → Nat → List String) : Prop :=
  ∀ l k, k ≤ l.length → (sample l k).length = k ∧ List.Subperm (sample l k) l

/-- What Python guarantees about `random.choice(l)` for non-empty `l`. -/
def ChoiceSpec (choice : List String → String) : Prop :=
  ∀ l, l ≠ [] → choice l ∈ l

/-- What Python guarantees about `random.shuffle`: a permutation. -/
def ShuffleSpec (shuffle : List String → List String) : Prop :=
  ∀ l, List.Perm (shuffle l) l

/-- Python dict assignment `d[k] = v`: overwrite in place if the key exists
(the key keeps its original position), else append. -/
def dictInsert (m : List (String × String)) (k v : String) : List (String × String) :=
  if k ∈ m.map Prod.fst then m.map (fun kv => if kv.1 = k then (k, v) else kv)
  else m ++ [(k, v)]

/-- The dict comprehension `{p.casefold(): p for p in people}`
(bot.py line 226). -/
def buildLookup (cf : String → String) (people : List String) : List (String × String) :=
  people.foldl (fun m p => dictInsert m (cf p) p) []

/-- Iteration over a dict yields its keys in insertion order. -/
def dictKeys (m : List (String × String)) : List String := m.map Prod.fst

/-- Dict lookup with a default (`d.get(k, default)`, and `d[k]` at call
sites where the key is known to be present). -/
def lookupD {α : Type} : List (String × α) → String → α → α
  | [], _, d => d
  | kv :: rest, k, d => if kv.1 = k then kv.2 else lookupD rest k d

/-- The per-person task-pair choice of `assign_operations`
(bot.py lines 193-207), for the branch where at least 2 operations exist. -/
def pickTasks (norm : String → String) (sample : List String → Nat → List String)
    (choice : List String → String) (shuffle : List String → List String)
    (operations prev_tasks : List String) : List String :=
  let fresh := operations.filter (fun op => decide (¬ norm op ∈ prev_tasks))
  if 2 ≤ fresh.length then sample fresh 2
  else if fresh.length = 1 then
    shuffle [fresh.headD "",
      choice (operations.filter (fun op => decide (op ≠ fresh.headD "")))]
  else sample operations 2

/-- `assign_operations` (bot.py lines 181-211). -/
def assign_operations (norm : String → String) (sample : List String → Nat → List String)
    (choice : List String → String) (shuffle : List String → List String)
    (remaining operations : List String)
    (last_ops : List (String × List String)) :
    Except PyErr (List (String × List String)) :=
  if remaining.isEmpty then .ok []
  else if operations.isEmpty then .error (.valueError "No operations configured")
  else if operations.length = 1 then
    .ok (remaining.map (fun person => (person, [operations.headD "", operations.headD ""])))
  else
    .ok (remaining.map (fun person =>
      (person, pickTasks norm sample choice shuffle operations (lookupD last_ops person []))))

/-- `available_keys` (bot.py line 230): dict keys with the day-excluded
(already casefolded) removed. -/
def availableKeys (cf : String → String) (people day_excluded_lower : List String) :
    List String :=
  (dictKeys (buildLookup cf people)).filter (fun k => decide (¬ k ∈ day_excluded_lower))

/-- `eligible_keys` before the fallback (bot.py line 233): the soft
(history) exclusion applied on top of the hard one. -/
def eligibleKeysPre (cf : String → String)
    (people history_excluded day_excluded_lower : List String) : List String :=
  (availableKeys cf people day_excluded_lower).filter
    (fun k => decide (¬ k ∈ history_excluded.map cf))

/-- `eligible_keys` after the short-staffing fallback (bot.py lines 236-237). -/
def eligibleKeys (cf : String → String)
    (people history_excluded day_excluded_lower : List String) : List String :=
  if (eligibleKeysPre cf people history_excluded day_excluded_lower).length < 2 then
    availableKeys cf people day_excluded_lower
  else eligibleKeysPre cf people history_excluded day_excluded_lower

/-- `selected_keys` (bot.py lines 240-242): shuffle the eligible keys by a
full-length sample and keep the first `min(2, len)`. -/
def selectedKeys (cf : String → String) (sample : List String → Nat → List String)
    (people history_excluded day_excluded_lower : List String) : List String :=
  (sample (eligibleKeys cf people history_excluded day_excluded_lower)
      (eligibleKeys cf people history_excluded day_excluded_lower).length).take
    (min 2 (eligibleKeys cf people history_excluded day_excluded_lower).length)

/-- `remaining_keys` before the reduced-ops down-selection (bot.py line 246). -/
def remainingKeysPre (cf : String → String) (sample : List String → Nat → List String)
    (people history_excluded day_excluded_lower : List String) : List String :=
  (availableKeys cf people day_excluded_lower).filter
    (fun k => decide (¬ k ∈ selectedKeys cf sample people history_excluded day_excluded_lower))

/-- `remaining_keys` after the reduced-ops down-selection (bot.py lines 249-250). -/
def remainingKeysFin (cf : String → String) (sample : List String → Nat → List String)
    (people history_excluded day_excluded_lower : List String) (reduced_ops : Bool) :
    List String :=
  if reduced_ops && decide
      (2 < (remainingKeysPre cf sample people history_excluded day_excluded_lower).length) then
    sample (remainingKeysPre cf sample people history_excluded day_excluded_lower) 2
  else remainingKeysPre cf sample people history_excluded day_excluded_lower

/-- `run_selection` (bot.py lines 214-254). -/
def run_selection (cf norm : String → String) (sample : List String → Nat → List String)
    (choice : List String → String) (shuffle : List String → List String)
    (people operations history_excluded day_excluded_lower : List String)
    (reduced_ops : Bool) (last_ops : List (String × List String)) :
    Except PyErr (List String × List (String × List String)) :=
  match assign_operations norm sample choice shuffle
      ((remainingKeysFin cf sample people history_excluded day_excluded_lower reduced_ops).map
        (fun k => lookupD (buildLookup cf people) k ""))
      operations last_ops with
  | .error e => .error e
  | .ok assignments =>
    .ok ((selectedKeys cf sample people history_excluded day_excluded_lower).map
      (fun k => lookupD (buildLookup cf people) k ""), assignments)

/-- `select_onboarding` (bot.py lines 156-170). -/
def select_onboarding (cf : String → String) (sample : List String → Nat → List String)
    (people day_excluded_lower : List String) : List String :=
  let available := people.filter (fun p => decide (¬ cf p ∈ day_excluded_lower))
  if available.length = 0 then []
  else sample available (min 2 available.length)

/-- A deterministic function satisfying `SampleSpec`: keep the first `k`. -/
def sampleTake (l : List String) (k : Nat) : List String := l.take k

/-- A deterministic function satisfying `ChoiceSpec`: the head. -/
def choiceHead (l : List String) : String := l.headD ""

/-- A deterministic function satisfying `ShuffleSpec`: the identity. -/
def shuffleId (l : List String) : List String := l

/-! ### History-store lemmas -/

lemma newHistory_eq (history : List (List String)) (selected : List String) :
    newHistory history selected = history.drop (history.length - 1) ++ [selected] := by
  unfold newHistory
  have h1 : (history ++ [selected]).length = history.length + 1 := by simp
  rw [h1]
  have h2 : history.length + 1 - 2 = history.length - 1 := by omega
  rw [h2, List.drop_append_of_le_length (by omega)]

lemma newHistory_length_le (history : List (List String)) (selected : List String) :
    (newHistory history selected).length ≤ 2 := by
  rw [newHistory_eq]
  simp only [List.length_append, List.length_drop, List.length_cons, List.length_nil]
  omega

lemma newHistory_getLast (history : List (List String)) (selected : List String) :
    (newHistory history selected).getLast? = some selected := by
  rw [newHistory_eq]
  exact List.getLast?_concat _

lemma newHistory_twice (history : List (List String)) (s2 s3 : List String) :
    newHistory (newHistory history s2) s3 = [s2, s3] := by
  rw [newHistory_eq history s2, newHistory_eq]
  have hlen : (history.drop (history.length - 1) ++ [s2]).length - 1
      = (history.drop (history.length - 1)).length := by simp
  rw [hlen, List.drop_append_of_le_length (le_refl _),
    List.drop_eq_nil_of_le (le_refl _)]
  simp

lemma load_history_wellformed (sels : List (List String)) (hsels : sels.length ≤ 2)
    (ops : List (String × List String)) :
    load_history (.parsed (.obj [("last_selections", encodeSelections sels),
        ("last_ops", encodeOps ops)])) =
      .ok (encodeSelections sels,
        ops.map (fun pt => (pt.1, JsonVal.arr (pt.2.map JsonVal.str)))) := by
  have h1 : jsonGet [("last_selections", encodeSelections sels), ("last_ops", encodeOps ops)]
      "last_selections" (.arr []) = encodeSelections sels := rfl
  have h2 : jsonGet [("last_selections", encodeSelections sels), ("last_ops", encodeOps ops)]
      "last_ops" (.obj []) = encodeOps ops := rfl
  have hd : (sels.map (fun sel => JsonVal.arr (sel.map JsonVal.str))).drop
      ((sels.map (fun sel => JsonVal.arr (sel.map JsonVal.str))).length - 2)
      = sels.map (fun sel => JsonVal.arr (sel.map JsonVal.str)) := by
    have h0 : (sels.map (fun sel => JsonVal.arr (sel.map JsonVal.str))).length - 2 = 0 := by
      simp only [List.length_map]; omega
    rw [h0, List.drop_zero]
  simp only [load_history]
  rw [h1]
  simp only [h2]
  simp only [encodeSelections, encodeOps, sliceLast2, Except.map, hd]

/-! ### Dict-model lemmas -/

lemma dictInsert_mem {m : List (String × String)} {k v : String} {kv : String × String}
    (h : kv ∈ dictInsert m k v) : kv ∈ m ∨ kv = (k, v) := by
  unfold dictInsert at h
  split at h
  · rcases List.mem_map.mp h with ⟨kv', hkv', heq⟩
    by_cases hk : kv'.1 = k
    · right
      rw [if_pos hk] at heq
      exact heq.symm
    · left
      rw [if_neg hk] at heq
      exact heq ▸ hkv'
  · rcases List.mem_append.mp h with h' | h'
    · exact Or.inl h'
    · exact Or.inr (by simpa using h')

lemma dictInsert_keys_of_mem {m : List (String × String)} {k v : String}
    (h : k ∈ m.map Prod.fst) :
    (dictInsert m k v).map Prod.fst = m.map Prod.fst := by
  unfold dictInsert
  rw [if_pos h, List.map_map]
  apply List.map_congr_left
  intro kv _
  by_cases hk : kv.1 = k
  · simp [hk]
  · simp [hk]

lemma dictInsert_keys_of_not_mem {m : List (String × String)} {k v : String}
    (h : ¬ k ∈ m.map Prod.fst) :
    (dictInsert m k v).map Prod.fst = m.map Prod.fst ++ [k] := by
  unfold dictInsert
  rw [if_neg h, List.map_append]
  rfl

lemma buildLookup_go_entries (cf : String → String) (P : String → Prop) :
    ∀ (l : List String) (acc : List (String × String)),
      (∀ kv ∈ acc, cf kv.2 = kv.1 ∧ P kv.2) → (∀ p ∈ l, P p) →
      ∀ kv ∈ l.foldl (fun m p => dictInsert m (cf p) p) acc, cf kv.2 = kv.1 ∧ P kv.2 := by
  intro l
  induction l with
  | nil => exact fun acc hacc _ kv hkv => hacc kv hkv
  | cons p rest ih =>
    intro acc hacc hl kv hkv
    simp only [List.foldl_cons] at hkv
    refine ih (dictInsert acc (cf p) p) ?_ (fun q hq => hl q (List.mem_cons_of_mem _ hq)) kv hkv
    intro kv' hkv'
    rcases dictInsert_mem hkv' with h' | h'
    · exact hacc kv' h'
    · rw [h']
      exact ⟨rfl, hl p (List.mem_cons_self _ _)⟩

lemma buildLookup_entries (cf : String → String) (people : List String) :
    ∀ kv ∈ buildLookup cf people, cf kv.2 = kv.1 ∧ kv.2 ∈ people :=
  buildLookup_go_entries cf (· ∈ people) people [] (by simp) (fun _ hp => hp)

lemma buildLookup_go_keys_nodup (cf : String → String) :
    ∀ (l : List String) (acc : List (String × String)),
      (acc.map Prod.fst).Nodup →
      ((l.foldl (fun m p => dictInsert m (cf p) p) acc).map Prod.fst).Nodup := by
  intro l
  induction l with
  | nil => exact fun _ h => h
  | cons p rest ih =>
    intro acc h
    simp only [List.foldl_cons]
    apply ih
    by_cases hk : cf p ∈ acc.map Prod.fst
    · rw [dictInsert_keys_of_mem hk]
      exact h
    · rw [dictInsert_keys_of_not_mem hk]
      refine List.Nodup.append h (List.nodup_singleton _) ?_
      intro a ha hb
      rw [List.mem_singleton.mp hb] at ha
      exact hk ha

lemma buildLookup_keys_nodup (cf : String → String) (people : List String) :
    (dictKeys (buildLookup cf people)).Nodup :=
  buildLookup_go_keys_nodup cf people [] (by simp)

lemma buildLookup_go_keys_eq (cf : String → String) :
    ∀ (l : List String) (acc : List (String × String)),
      (acc.map Prod.fst ++ l.map cf).Nodup →
      (l.foldl (fun m p => dictInsert m (cf p) p) acc).map Prod.fst =
        acc.map Prod.fst ++ l.map cf := by
  intro l
  induction l with
  | nil => intro acc _; simp
  | cons p rest ih =>
    intro acc h
    simp only [List.foldl_cons]
    have hk : ¬ cf p ∈ acc.map Prod.fst := by
      intro hmem
      have hdisj := List.disjoint_of_nodup_append (by simpa [List.map_cons] using h)
      exact hdisj hmem (List.mem_cons_self _ _)
    have hins : (dictInsert acc (cf p) p).map Prod.fst = acc.map Prod.fst ++ [cf p] :=
      dictInsert_keys_of_not_mem hk
    have hnodup : ((dictInsert acc (cf p) p).map Prod.fst ++ rest.map cf).Nodup := by
      rw [hins, List.append_assoc, List.singleton_append]
      simpa [List.map_cons] using h
    rw [ih (dictInsert acc (cf p) p) hnodup, hins, List.append_assoc, List.singleton_append,
      List.map_cons]

lemma buildLookup_keys_eq (cf : String → String) (people : List String)
    (h : (people.map cf).Nodup) :
    dictKeys (buildLookup cf people) = people.map cf := by
  have := buildLookup_go_keys_eq cf people [] (by simpa using h)
  simpa [dictKeys] using this

lemma lookupD_mem {α : Type} :
    ∀ (m : List (String × α)) (k : String) (d : α),
      k ∈ m.map Prod.fst → (k, lookupD m k d) ∈ m := by
  intro m
  induction m with
  | nil => intro k d h; simp at h
  | cons kv rest ih =>
    intro k d h
    by_cases hk : kv.1 = k
    · simp only [lookupD, if_pos hk]
      have heq : (k, kv.2) = kv := by rw [← hk]
      exact heq ▸ List.mem_cons_self _ _
    · have hrest : k ∈ rest.map Prod.fst := by
        rcases List.mem_map.mp h with ⟨kv', hkv', e⟩
        rcases List.mem_cons.mp hkv' with rfl | hkv'
        · exact absurd e hk
        · exact List.mem_map.mpr ⟨kv', hkv', e⟩
      simp only [lookupD, if_neg hk]
      exact List.mem_cons_of_mem _ (ih k d hrest)

lemma lookupD_buildLookup (cf : String → String) (people : List String) {k : String}
    (d : String) (h : k ∈ dictKeys (buildLookup cf people)) :
    cf (lookupD (buildLookup cf people) k d) = k ∧
      lookupD (buildLookup cf people) k d ∈ people := by
  have hmem := lookupD_mem (buildLookup cf people) k d h
  exact buildLookup_entries cf people _ hmem

/-! ### Randomness-spec consequences -/

lemma headD_mem_of_ne_nil {α : Type} {l : List α} (d : α) (h : l ≠ []) : l.headD d ∈ l := by
  cases l with
  | nil => exact absurd rfl h
  | cons a t => exact List.mem_cons_self _ _

lemma sampleTake_spec : SampleSpec sampleTake :=
  fun l k hk => ⟨List.length_take_of_le hk, (List.take_sublist k l).subperm⟩

lemma choiceHead_spec : ChoiceSpec choiceHead :=
  fun _ h => headD_mem_of_ne_nil "" h

lemma shuffleId_spec : ShuffleSpec shuffleId :=
  fun l => List.Perm.refl l

lemma sample_nodup {sample : List String → Nat → List String} (hs : SampleSpec sample)
    {l : List String} {k : Nat} (hk : k ≤ l.length) (hn : l.Nodup) :
    (sample l k).Nodup := by
  obtain ⟨l', hp, hsub⟩ := (hs l k hk).2
  exact hp.nodup (List.Nodup.sublist hsub hn)

lemma sample_all_perm {sample : List String → Nat → List String} (hs : SampleSpec sample)
    (l : List String) : List.Perm (sample l l.length) l := by
  obtain ⟨hlen, l', hp, hsub⟩ := hs l l.length le_rfl
  have hl' : l' = l := hsub.eq_of_length (by rw [hp.length_eq, hlen])
  exact (hl' ▸ hp).symm

/-! ### Selection-pipeline lemmas -/

lemma availableKeys_mem {cf : String → String} {people day_excluded_lower : List String}
    {k : String} (h : k ∈ availableKeys cf people day_excluded_lower) :
    k ∈ dictKeys (buildLookup cf people) ∧ ¬ k ∈ day_excluded_lower := by
  unfold availableKeys at h
  have h' := List.mem_filter.mp h
  exact ⟨h'.1, by simpa using h'.2⟩

lemma availableKeys_nodup (cf : String → String) (people day_excluded_lower : List String) :
    (availableKeys cf people day_excluded_lower).Nodup :=
  (buildLookup_keys_nodup cf people).filter _

lemma eligibleKeysPre_mem {cf : String → String}
    {people history_excluded day_excluded_lower : List String} {k : String}
    (h : k ∈ eligibleKeysPre cf people history_excluded day_excluded_lower) :
    k ∈ availableKeys cf people day_excluded_lower ∧ ¬ k ∈ history_excluded.map cf := by
  unfold eligibleKeysPre at h
  have h' := List.mem_filter.mp h
  exact ⟨h'.1, by simpa using h'.2⟩

lemma eligibleKeys_subset {cf : String → String}
    {people history_excluded day_excluded_lower : List String} :
    ∀ k ∈ eligibleKeys cf people history_excluded day_excluded_lower,
      k ∈ availableKeys cf people day_excluded_lower := by
  intro k hk
  unfold eligibleKeys at hk
  split at hk
  · exact hk
  · exact (eligibleKeysPre_mem hk).1

lemma eligibleKeys_nodup (cf : String → String)
    (people history_excluded day_excluded_lower : List String) :
    (eligibleKeys cf people history_excluded day_excluded_lower).Nodup := by
  unfold eligibleKeys
  split
  · exact availableKeys_nodup cf people day_excluded_lower
  · unfold eligibleKeysPre
    exact (availableKeys_nodup cf people day_excluded_lower).filter _

lemma selectedKeys_subset {cf : String → String} {sample : List String → Nat → List String}
    (hs : SampleSpec sample) {people history_excluded day_excluded_lower : List String} :
    ∀ k ∈ selectedKeys cf sample people history_excluded day_excluded_lower,
      k ∈ eligibleKeys cf people history_excluded day_excluded_lower := by
  intro k hk
  unfold selectedKeys at hk
  exact (hs _ _ le_rfl).2.subset (List.take_subset _ _ hk)

lemma selectedKeys_nodup {cf : String → String} {sample : List String → Nat → List String}
    (hs : SampleSpec sample) (people history_excluded day_excluded_lower : List String) :
    (selectedKeys cf sample people history_excluded day_excluded_lower).Nodup := by
  unfold selectedKeys
  exact List.Nodup.sublist (List.take_sublist _ _)
    (sample_nodup hs le_rfl (eligibleKeys_nodup cf people history_excluded day_excluded_lower))

lemma selectedKeys_length {cf : String → String} {sample : List String → Nat → List String}
    (hs : SampleSpec sample) (people history_excluded day_excluded_lower : List String) :
    (selectedKeys cf sample people history_excluded day_excluded_lower).length
      = min 2 (eligibleKeys cf people history_excluded day_excluded_lower).length := by
  unfold selectedKeys
  rw [List.length_take, (hs _ _ le_rfl).1]
  omega

lemma remainingKeysPre_mem {cf : String → String} {sample : List String → Nat → List String}
    {people history_excluded day_excluded_lower : List String} {k : String}
    (h : k ∈ remainingKeysPre cf sample people history_excluded day_excluded_lower) :
    k ∈ availableKeys cf people day_excluded_lower ∧
      ¬ k ∈ selectedKeys cf sample people history_excluded day_excluded_lower := by
  unfold remainingKeysPre at h
  have h' := List.mem_filter.mp h
  exact ⟨h'.1, by simpa using h'.2⟩

lemma remainingKeysPre_nodup (cf : String → String) (sample : List String → Nat → List String)
    (people history_excluded day_excluded_lower : List String) :
    (remainingKeysPre cf sample people history_excluded day_excluded_lower).Nodup := by
  unfold remainingKeysPre
  exact (availableKeys_nodup cf people day_excluded_lower).filter _

lemma remainingKeysFin_subset {cf : String → String} {sample : List String → Nat → List String}
    (hs : SampleSpec sample)
    {people history_excluded day_excluded_lower : List String} {reduced_ops : Bool} :
    ∀ k ∈ remainingKeysFin cf sample people history_excluded day_excluded_lower reduced_ops,
      k ∈ remainingKeysPre cf sample people history_excluded day_excluded_lower := by
  intro k hk
  unfold remainingKeysFin at hk
  split at hk
  · rename_i hcond
    have h2 : 2 < (remainingKeysPre cf sample people history_excluded day_excluded_lower).length := by
      have := (Bool.and_eq_true _ _).mp hcond
      exact of_decide_eq_true this.2
    exact (hs _ 2 (by omega)).2.subset hk
  · exact hk

/-! ### Lookup-composition lemmas -/

lemma map_lookupD_cf (cf : String → String) (people : List String) {K : List String}
    (h : ∀ k ∈ K, k ∈ dictKeys (buildLookup cf people)) :
    (K.map (fun k => lookupD (buildLookup cf people) k "")).map cf = K := by
  rw [List.map_map]
  have hcong : ∀ k ∈ K, (cf ∘ fun k => lookupD (buildLookup cf people) k "") k = id k := by
    intro k hk
    exact (lookupD_buildLookup cf people "" (h k hk)).1
  rw [List.map_congr_left hcong, List.map_id]

lemma map_lookupD_mem_people (cf : String → String) (people : List String) {K : List String}
    (h : ∀ k ∈ K, k ∈ dictKeys (buildLookup cf people)) :
    ∀ x ∈ K.map (fun k => lookupD (buildLookup cf people) k ""), x ∈ people := by
  intro x hx
  rcases List.mem_map.mp hx with ⟨k, hk, rfl⟩
  exact (lookupD_buildLookup cf people "" (h k hk)).2

lemma cf_mem_of_mem_map_lookupD (cf : String → String) (people : List String)
    {K : List String} {x : String} (h : ∀ k ∈ K, k ∈ dictKeys (buildLookup cf people))
    (hx : x ∈ K.map (fun k => lookupD (buildLookup cf people) k "")) : cf x ∈ K := by
  rcases List.mem_map.mp hx with ⟨k, hk, rfl⟩
  rw [(lookupD_buildLookup cf people "" (h k hk)).1]
  exact hk

lemma map_lookupD_nodup (cf : String → String) (people : List String) {K : List String}
    (h : ∀ k ∈ K, k ∈ dictKeys (buildLookup cf people)) (hK : K.Nodup) :
    (K.map (fun k => lookupD (buildLookup cf people) k "")).Nodup := by
  apply List.Nodup.of_map cf
  rw [map_lookupD_cf cf people h]
  exact hK

/-! ### Destructuring run_selection and assign_operations -/

lemma run_selection_ok {cf norm : String → String} {sample : List String → Nat → List String}
    {choice : List String → String} {shuffle : List String → List String}
    {people operations history_excluded day_excluded_lower : List String}
    {reduced_ops : Bool} {last_ops : List (String × List String)}
    {sel : List String} {asg : List (String × List String)}
    (h : run_selection cf norm sample choice shuffle people operations history_excluded
        day_excluded_lower reduced_ops last_ops = .ok (sel, asg)) :
    sel = (selectedKeys cf sample people history_excluded day_excluded_lower).map
        (fun k => lookupD (buildLookup cf people) k "") ∧
    assign_operations norm sample choice shuffle
      ((remainingKeysFin cf sample people history_excluded day_excluded_lower reduced_ops).map
        (fun k => lookupD (buildLookup cf people) k ""))
      operations last_ops = .ok asg := by
  unfold run_selection at h
  cases hA : assign_operations norm sample choice shuffle
      ((remainingKeysFin cf sample people history_excluded day_excluded_lower reduced_ops).map
        (fun k => lookupD (buildLookup cf people) k ""))
      operations last_ops with
  | error e =>
    simp only [hA] at h
    exact Except.noConfusion h
  | ok a =>
    simp only [hA, Except.ok.injEq, Prod.mk.injEq] at h
    exact ⟨h.1.symm, congrArg Except.ok h.2⟩

lemma map_fst_map_pair {α β : Type} (l : List α) (f : α → β) :
    (l.map (fun a => (a, f a))).map Prod.fst = l := by
  induction l with
  | nil => rfl
  | cons a t ih => simp only [List.map_cons, ih]

lemma assign_operations_keys {norm : String → String}
    {sample : List String → Nat → List String} {choice : List String → String}
    {shuffle : List String → List String} {remaining operations : List String}
    {last_ops : List (String × List String)} {l : List (String × List String)}
    (h : assign_operations norm sample choice shuffle remaining operations last_ops = .ok l) :
    l.map Prod.fst = remaining := by
  unfold assign_operations at h
  by_cases hr : remaining.isEmpty
  · rw [if_pos hr] at h
    rw [← Except.ok.inj h]
    exact (List.isEmpty_iff.mp hr).symm
  · rw [if_neg hr] at h
    by_cases ho : operations.isEmpty
    · rw [if_pos ho] at h
      exact absurd h (by simp)
    · rw [if_neg ho] at h
      by_cases h1 : operations.length = 1
      · rw [if_pos h1] at h
        rw [← Except.ok.inj h]
        exact map_fst_map_pair _ _
      · rw [if_neg h1] at h
        rw [← Except.ok.inj h]
        exact map_fst_map_pair _ _

/-! ### pickTasks branch lemmas -/

lemma filter_ne_headD_ne_nil {norm : String → String} {operations prev_tasks : List String}
    (h2 : 2 ≤ operations.length)
    (h1 : (operations.filter (fun op => decide (¬ norm op ∈ prev_tasks))).length = 1) :
    operations.filter (fun op => decide (op ≠
      (operations.filter (fun op => decide (¬ norm op ∈ prev_tasks))).headD "")) ≠ [] := by
  intro hnil
  have hfne : operations.filter (fun op => decide (¬ norm op ∈ prev_tasks)) ≠ [] := by
    intro h0
    rw [h0] at h1
    simp at h1
  have hfmem := headD_mem_of_ne_nil "" hfne
  have hpred := (List.mem_filter.mp hfmem).2
  have hall : ∀ op ∈ operations,
      op = (operations.filter (fun op => decide (¬ norm op ∈ prev_tasks))).headD "" := by
    intro op hop
    have h' := List.filter_eq_nil_iff.mp hnil op hop
    simpa using h'
  have heq : operations.filter (fun op => decide (¬ norm op ∈ prev_tasks)) = operations := by
    apply List.filter_eq_self.mpr
    intro a ha
    rw [hall a ha]
    exact hpred
  rw [heq] at h1
  omega

lemma pickTasks_length {norm : String → String} {sample : List String → Nat → List String}
    {choice : List String → String} {shuffle : List String → List String}
    {operations prev_tasks : List String}
    (hs : SampleSpec sample) (hsh : ShuffleSpec shuffle) (h2 : 2 ≤ operations.length) :
    (pickTasks norm sample choice shuffle operations prev_tasks).length = 2 := by
  simp only [pickTasks]
  split
  · rename_i hf
    exact (hs _ 2 hf).1
  · split
    · exact (hsh _).length_eq
    · exact (hs _ 2 h2).1

lemma pickTasks_mem {norm : String → String} {sample : List String → Nat → List String}
    {choice : List String → String} {shuffle : List String → List String}
    {operations prev_tasks : List String}
    (hs : SampleSpec sample) (hc : ChoiceSpec choice) (hsh : ShuffleSpec shuffle)
    (h2 : 2 ≤ operations.length) :
    ∀ t ∈ pickTasks norm sample choice shuffle operations prev_tasks, t ∈ operations := by
  intro t ht
  simp only [pickTasks] at ht
  split at ht
  · rename_i hf
    exact List.filter_subset' _ ((hs _ 2 hf).2.subset ht)
  · split at ht
    · rename_i hnf hf1
      have ht' := ((hsh _).mem_iff).mp ht
      have hfne : operations.filter (fun op => decide (¬ norm op ∈ prev_tasks)) ≠ [] := by
        intro h0
        rw [h0] at hf1
        simp at hf1
      rcases List.mem_cons.mp ht' with rfl | ht''
      · exact List.filter_subset' _ (headD_mem_of_ne_nil "" hfne)
      · rcases List.mem_cons.mp ht'' with rfl | habs
        · exact List.filter_subset' _ (hc _ (filter_ne_headD_ne_nil h2 hf1))
        · exact absurd habs (List.not_mem_nil _)
    · exact (hs _ 2 h2).2.subset ht

lemma pickTasks_nodup {norm : String → String} {sample : List String → Nat → List String}
    {choice : List String → String} {shuffle : List String → List String}
    {operations prev_tasks : List String}
    (hs : SampleSpec sample) (hc : ChoiceSpec choice) (hsh : ShuffleSpec shuffle)
    (h2 : 2 ≤ operations.length) (hnd : operations.Nodup) :
    (pickTasks norm sample choice shuffle operations prev_tasks).Nodup := by
  simp only [pickTasks]
  split
  · rename_i hf
    exact sample_nodup hs hf (hnd.filter _)
  · split
    · rename_i hnf hf1
      have hcmem := hc _ (filter_ne_headD_ne_nil h2 hf1)
      have hcne : choice (operations.filter (fun op => decide (op ≠
          (operations.filter (fun op => decide (¬ norm op ∈ prev_tasks))).headD "")))
          ≠ (operations.filter (fun op => decide (¬ norm op ∈ prev_tasks))).headD "" := by
        have := (List.mem_filter.mp hcmem).2
        simpa using this
      refine (hsh _).symm.nodup ?_
      simp only [List.nodup_cons, List.mem_singleton, List.nodup_nil, and_true,
        List.not_mem_nil, not_false_iff]
      exact fun h' => hcne h'.symm
    · exact sample_nodup hs h2 hnd

lemma pickTasks_fresh_one {norm : String → String} {sample : List String → Nat → List String}
    {choice : List String → String} {shuffle : List String → List String}
    {operations prev_tasks : List String}
    (hc : ChoiceSpec choice) (hsh : ShuffleSpec shuffle) (h2 : 2 ≤ operations.length)
    (h1 : (operations.filter (fun op => decide (¬ norm op ∈ prev_tasks))).length = 1) :
    ∃ second, second ∈ operations ∧
      second ≠ (operations.filter (fun op => decide (¬ norm op ∈ prev_tasks))).headD "" ∧
      List.Perm (pickTasks norm sample choice shuffle operations prev_tasks)
        [(operations.filter (fun op => decide (¬ norm op ∈ prev_tasks))).headD "", second] := by
  have hcmem := hc _ (filter_ne_headD_ne_nil h2 h1)
  have hmem := List.mem_filter.mp hcmem
  refine ⟨_, hmem.1, by simpa using hmem.2, ?_⟩
  simp only [pickTasks]
  rw [if_neg (by omega), if_pos h1]
  exact hsh _

lemma assign_operations_tasks_length {norm : String → String}
    {sample : List String → Nat → List String} {choice : List String → String}
    {shuffle : List String → List String} {remaining operations : List String}
    {last_ops : List (String × List String)} {l : List (String × List String)}
    (hs : SampleSpec sample) (hsh : ShuffleSpec shuffle)
    (h : assign_operations norm sample choice shuffle remaining operations last_ops = .ok l) :
    ∀ pr ∈ l, pr.2.length = 2 := by
  intro pr hpr
  unfold assign_operations at h
  by_cases hr : remaining.isEmpty
  · rw [if_pos hr] at h
    rw [← Except.ok.inj h] at hpr
    exact absurd hpr (List.not_mem_nil _)
  · rw [if_neg hr] at h
    by_cases ho : operations.isEmpty
    · rw [if_pos ho] at h
      exact absurd h (by simp)
    · rw [if_neg ho] at h
      by_cases h1 : operations.length = 1
      · rw [if_pos h1] at h
        rw [← Except.ok.inj h] at hpr
        rcases List.mem_map.mp hpr with ⟨p, _, rfl⟩
        rfl
      · rw [if_neg h1] at h
        rw [← Except.ok.inj h] at hpr
        rcases List.mem_map.mp hpr with ⟨p, _, rfl⟩
        have h2 : 2 ≤ operations.length := by
          have hne : operations ≠ [] := by simpa [List.isEmpty_iff] using ho
          have hlen : operations.length ≠ 0 := by simpa [List.length_eq_zero] using hne
          omega
        exact pickTasks_length hs hsh h2

lemma assign_operations_tasks_nodup {norm : String → String}
    {sample : List String → Nat → List String} {choice : List String → String}
    {shuffle : List String → List String} {remaining operations : List String}
    {last_ops : List (String × List String)} {l : List (String × List String)}
    (hs : SampleSpec sample) (hc : ChoiceSpec choice) (hsh : ShuffleSpec shuffle)
    (h2 : 2 ≤ operations.length) (hnd : operations.Nodup)
    (h : assign_operations norm sample choice shuffle remaining operations last_ops = .ok l) :
    ∀ pr ∈ l, pr.2.Nodup := by
  intro pr hpr
  unfold assign_operations at h
  by_cases hr : remaining.isEmpty
  · rw [if_pos hr] at h
    rw [← Except.ok.inj h] at hpr
    exact absurd hpr (List.not_mem_nil _)
  · rw [if_neg hr] at h
    have hone : ¬ operations.isEmpty = true := by
      simp only [List.isEmpty_iff]
      intro h0
      rw [h0] at h2
      simp at h2
    rw [if_neg hone, if_neg (by omega)] at h
    rw [← Except.ok.inj h] at hpr
    rcases List.mem_map.mp hpr with ⟨p, _, rfl⟩
    exact pickTasks_nodup hs hc hsh h2 hnd

/-! ### Claim theorems: history store -/

/-- C6: `assign_operations` raises a configuration error (`ValueError`) if
and only if the task list is empty and at least one person remains; with an
empty remaining list it returns an empty mapping regardless of the tasks. -/
theorem c6_assign_operations_error_iff (norm : String → String)
    (sample : List String → Nat → List String) (choice : List String → String)
    (shuffle : List String → List String)
    (remaining operations : List String) (last_ops : List (String × List String)) :
    ((∃ e, assign_operations norm sample choice shuffle remaining operations last_ops
        = .error e) ↔ operations = [] ∧ remaining ≠ []) ∧
    assign_operations norm sample choice shuffle [] operations last_ops = .ok [] := by
  constructor
  · constructor
    · rintro ⟨e, he⟩
      unfold assign_operations at he
      by_cases hr : remaining.isEmpty
      · rw [if_pos hr] at he
        exact absurd he (by simp)
      · rw [if_neg hr] at he
        by_cases ho : operations.isEmpty
        · refine ⟨List.isEmpty_iff.mp ho, fun h => hr ?_⟩
          rw [h]
          rfl
        · rw [if_neg ho] at he
          by_cases h1 : operations.length = 1
          · rw [if_pos h1] at he
            exact absurd he (by simp)
          · rw [if_neg h1] at he
            exact absurd he (by simp)
    · rintro ⟨ho, hr⟩
      refine ⟨.valueError "No operations configured", ?_⟩
      unfold assign_operations
      rw [if_neg (by simpa [List.isEmpty_iff] using hr), if_pos (by simp [ho])]
  · rfl

/-- C7: the claim states that `load_history` never raises on arbitrary
corrupt stored state.  The code catches only `JSONDecodeError` and `OSError`;
a file holding valid JSON whose top level is not an object — e.g. the content
`[]` — makes `data.get` raise an uncaught `AttributeError`.  The missing /
unreadable / non-JSON cases do return the defaults, as the first three
conjuncts record, but the fourth conjunct evaluates the code at the failing
input. -/
theorem c7_load_history_raises_on_json_array :
    load_history .missing = .ok (.arr [], []) ∧
    load_history .readError = .ok (.arr [], []) ∧
    load_history .badJson = .ok (.arr [], []) ∧
    load_history (.parsed (.arr [])) = .error PyErr.attributeError :=
  ⟨rfl, rfl, rfl, rfl⟩

/-- C8: history round-trip.  Saving writes exactly `(history + [selected])[-2:]`
as `last_selections`, and loading the saved state immediately returns that
sequence, whose most recent (last) entry is `selected`; it never holds more
than 2 entries, and chaining saves keeps only the last 2 (oldest dropped
first), so after 3 consecutive saves only the 2nd and 3rd selections remain. -/
theorem c8_history_roundtrip (norm : String → String) (selected : List String)
    (history : List (List String))
    (assignments prev_ops : Option (List (String × List String)))
    (s1 s2 s3 : List String) :
    (∃ ops, load_history (.parsed (save_history norm selected history assignments prev_ops)) =
        .ok (encodeSelections (newHistory history selected), ops)) ∧
    (newHistory history selected).getLast? = some selected ∧
    (newHistory history selected).length ≤ 2 ∧
    newHistory (newHistory (newHistory history s1) s2) s3 = [s2, s3] := by
  have hsave : save_history norm selected history assignments prev_ops
      = .obj [("last_selections", encodeSelections (newHistory history selected)),
              ("last_ops", encodeOps (if pyTruthy assignments then
                  (assignments.getD []).map (fun pt => (pt.1, pt.2.map norm))
                else prev_ops.getD []))] := rfl
  refine ⟨?_, newHistory_getLast _ _, newHistory_length_le _ _, newHistory_twice _ _ _⟩
  simp only [hsave]
  exact ⟨_, load_history_wellformed _ (newHistory_length_le _ _) _⟩

/-- C9: `save_history` treats an empty assignments dict exactly like an
absent one (`if assignments:` is false for both `None` and `{}`): the stored
`last_ops` field is the carried-forward previous `last_ops`, or empty when
none was supplied. -/
theorem c9_empty_assignments_carries_prev_ops (norm : String → String)
    (selected : List String) (history : List (List String))
    (prev_ops : Option (List (String × List String))) :
    save_history norm selected history (some []) prev_ops
      = save_history norm selected history none prev_ops ∧
    save_history norm selected history (some []) prev_ops
      = .obj [("last_selections", encodeSelections (newHistory history selected)),
              ("last_ops", encodeOps (prev_ops.getD []))] :=
  ⟨rfl, rfl⟩

lemma remainingKeysFin_nodup {cf : String → String} {sample : List String → Nat → List String}
    (hs : SampleSpec sample)
    (people history_excluded day_excluded_lower : List String) (reduced_ops : Bool) :
    (remainingKeysFin cf sample people history_excluded day_excluded_lower reduced_ops).Nodup := by
  unfold remainingKeysFin
  split
  · rename_i hcond
    have h2 : 2 < (remainingKeysPre cf sample people history_excluded day_excluded_lower).length :=
      of_decide_eq_true ((Bool.and_eq_true _ _).mp hcond).2
    exact sample_nodup hs (by omega) (remainingKeysPre_nodup _ _ _ _ _)
  · exact remainingKeysPre_nodup _ _ _ _ _

/-! ### Claim theorems: selection -/

/-- C1: for every roster and every run (any outcome of the random draws), a
person whose casefolded name is in the day-hard-exclusion set never appears
in the help-desk selection, never appears as a key of the operations
assignment mapping, and never appears in the onboarding selection. -/
theorem c1_day_excluded_never_selected (cf norm : String → String)
    (sample : List String → Nat → List String) (choice : List String → String)
    (shuffle : List String → List String) (hs : SampleSpec sample)
    (people operations history_excluded day_excluded_lower : List String)
    (reduced_ops : Bool) (last_ops : List (String × List String))
    (p : String) (hp : cf p ∈ day_excluded_lower) :
    (∀ sel asg, run_selection cf norm sample choice shuffle people operations
        history_excluded day_excluded_lower reduced_ops last_ops = .ok (sel, asg) →
      ¬ p ∈ sel ∧ ¬ p ∈ asg.map Prod.fst) ∧
    ¬ p ∈ select_onboarding cf sample people day_excluded_lower := by
  constructor
  · intro sel asg h
    obtain ⟨hsel, hasg⟩ := run_selection_ok h
    constructor
    · intro hmem
      rw [hsel] at hmem
      have hkeys : ∀ k ∈ selectedKeys cf sample people history_excluded day_excluded_lower,
          k ∈ dictKeys (buildLookup cf people) := by
        intro k hk
        exact (availableKeys_mem (eligibleKeys_subset _ (selectedKeys_subset hs _ hk))).1
      have hcf := cf_mem_of_mem_map_lookupD cf people hkeys hmem
      exact (availableKeys_mem (eligibleKeys_subset _ (selectedKeys_subset hs _ hcf))).2 hp
    · intro hmem
      rw [assign_operations_keys hasg] at hmem
      have hkeys : ∀ k ∈ remainingKeysFin cf sample people history_excluded
          day_excluded_lower reduced_ops, k ∈ dictKeys (buildLookup cf people) := by
        intro k hk
        exact (availableKeys_mem (remainingKeysPre_mem (remainingKeysFin_subset hs _ hk)).1).1
      have hcf := cf_mem_of_mem_map_lookupD cf people hkeys hmem
      exact (availableKeys_mem
        (remainingKeysPre_mem (remainingKeysFin_subset hs _ hcf)).1).2 hp
  · intro hmem
    simp only [select_onboarding] at hmem
    split at hmem
    · exact absurd hmem (List.not_mem_nil _)
    · have hsub := (hs _ _ (Nat.min_le_right _ _)).2.subset hmem
      have := (List.mem_filter.mp hsub).2
      rw [decide_eq_true_eq] at this
      exact this hp

/-- C2: the help-desk selection never exceeds 2 people; and for every roster
of at least 2 names, pairwise distinct under casefolding (the spec's
case-insensitive identity of persons), with empty hard- and soft-exclusion
sets, it returns exactly 2 distinct people drawn from the roster. -/
theorem c2_helpdesk_exactly_two (cf norm : String → String)
    (sample : List String → Nat → List String) (choice : List String → String)
    (shuffle : List String → List String) (hs : SampleSpec sample)
    (people operations : List String) (reduced_ops : Bool)
    (last_ops : List (String × List String)) :
    (∀ history_excluded day_excluded_lower sel asg,
      run_selection cf norm sample choice shuffle people operations history_excluded
        day_excluded_lower reduced_ops last_ops = .ok (sel, asg) → sel.length ≤ 2) ∧
    ((people.map cf).Nodup → 2 ≤ people.length →
      ∀ sel asg,
        run_selection cf norm sample choice shuffle people operations [] [] reduced_ops
          last_ops = .ok (sel, asg) →
        sel.length = 2 ∧ sel.Nodup ∧ ∀ x ∈ sel, x ∈ people) := by
  constructor
  · intro he de sel asg h
    obtain ⟨hsel, _⟩ := run_selection_ok h
    rw [hsel, List.length_map, selectedKeys_length hs]
    omega
  · intro hnd hlen sel asg h
    obtain ⟨hsel, _⟩ := run_selection_ok h
    have hkeys : ∀ k ∈ selectedKeys cf sample people [] [],
        k ∈ dictKeys (buildLookup cf people) := by
      intro k hk
      exact (availableKeys_mem (eligibleKeys_subset _ (selectedKeys_subset hs _ hk))).1
    refine ⟨?_, ?_, ?_⟩
    · rw [hsel, List.length_map, selectedKeys_length hs]
      have hav : availableKeys cf people [] = dictKeys (buildLookup cf people) := by
        unfold availableKeys
        apply List.filter_eq_self.mpr
        intro a _
        simp
      have hel : eligibleKeysPre cf people [] [] = availableKeys cf people [] := by
        unfold eligibleKeysPre
        apply List.filter_eq_self.mpr
        intro a _
        simp
      have h2 : 2 ≤ (eligibleKeysPre cf people [] []).length := by
        rw [hel, hav, buildLookup_keys_eq cf people hnd, List.length_map]
        exact hlen
      have heq : eligibleKeys cf people [] [] = eligibleKeysPre cf people [] [] := by
        unfold eligibleKeys
        rw [if_neg (by omega)]
      rw [heq]
      omega
    · rw [hsel]
      exact map_lookupD_nodup cf people hkeys (selectedKeys_nodup hs _ _ _)
    · rw [hsel]
      exact map_lookupD_mem_people cf people hkeys

/-- C3: the soft-exclusion set computed by `get_excluded_people` is exactly
the intersection of the two stored selections (empty when fewer than 2
exist); a person in it is excluded from the help-desk selection whenever at
least 2 eligible candidates remain after removing the soft-excluded, and
when fewer than 2 would remain the soft exclusion is discarded so
eligibility reverts to the full hard-available pool. -/
theorem c3_soft_exclusion_with_fallback (cf norm : String → String)
    (sample : List String → Nat → List String) (choice : List String → String)
    (shuffle : List String → List String) (hs : SampleSpec sample)
    (hist : List (List String)) (people operations day_excluded_lower : List String)
    (reduced_ops : Bool) (last_ops : List (String × List String)) :
    (∀ q, q ∈ get_excluded_people hist ↔
      2 ≤ hist.length ∧ q ∈ hist.headD [] ∧ q ∈ hist.tail.headD []) ∧
    (2 ≤ (eligibleKeysPre cf people (get_excluded_people hist) day_excluded_lower).length →
      ∀ p, cf p ∈ (get_excluded_people hist).map cf →
      ∀ sel asg, run_selection cf norm sample choice shuffle people operations
          (get_excluded_people hist) day_excluded_lower reduced_ops last_ops
          = .ok (sel, asg) →
        ¬ p ∈ sel) ∧
    ((eligibleKeysPre cf people (get_excluded_people hist) day_excluded_lower).length < 2 →
      eligibleKeys cf people (get_excluded_people hist) day_excluded_lower
        = availableKeys cf people day_excluded_lower) := by
  refine ⟨?_, ?_, ?_⟩
  · intro q
    unfold get_excluded_people
    by_cases h2 : hist.length < 2
    · rw [if_pos h2]
      simp only [List.not_mem_nil, false_iff]
      exact fun hq => absurd hq.1 (by omega)
    · rw [if_neg h2]
      simp only [List.mem_filter, decide_eq_true_eq]
      constructor
      · intro hq
        exact ⟨by omega, hq.1, hq.2⟩
      · intro hq
        exact ⟨hq.2.1, hq.2.2⟩
  · intro h2 p hp sel asg h
    obtain ⟨hsel, _⟩ := run_selection_ok h
    intro hmem
    rw [hsel] at hmem
    have hkeys : ∀ k ∈ selectedKeys cf sample people (get_excluded_people hist)
        day_excluded_lower, k ∈ dictKeys (buildLookup cf people) := by
      intro k hk
      exact (availableKeys_mem (eligibleKeys_subset _ (selectedKeys_subset hs _ hk))).1
    have hcf := cf_mem_of_mem_map_lookupD cf people hkeys hmem
    have helig := selectedKeys_subset hs _ hcf
    have heq : eligibleKeys cf people (get_excluded_people hist) day_excluded_lower
        = eligibleKeysPre cf people (get_excluded_people hist) day_excluded_lower := by
      unfold eligibleKeys
      rw [if_neg (by omega)]
    rw [heq] at helig
    exact (eligibleKeysPre_mem helig).2 hp
  · intro hlt
    unfold eligibleKeys
    rw [if_pos hlt]

/-- C4: with at least 2 configured tasks (pairwise distinct entries, as the
repository's task list is), `assign_operations` succeeds and gives every
remaining person the pair `pickTasks` of their previous labels; a person
with exactly one fresh task always receives that fresh task together with a
second task drawn from the full task list excluding it; a person with no
fresh task receives 2 distinct tasks drawn from the entire task list, with
no error raised. -/
theorem c4_fresh_task_branches (norm : String → String)
    (sample : List String → Nat → List String) (choice : List String → String)
    (shuffle : List String → List String)
    (hs : SampleSpec sample) (hc : ChoiceSpec choice) (hsh : ShuffleSpec shuffle)
    (operations : List String) (h2 : 2 ≤ operations.length) (hnd : operations.Nodup)
    (remaining : List String) (last_ops : List (String × List String)) :
    assign_operations norm sample choice shuffle remaining operations last_ops
      = .ok (remaining.map (fun person =>
          (person,
            pickTasks norm sample choice shuffle operations (lookupD last_ops person [])))) ∧
    (∀ prev_tasks : List String,
      ((operations.filter (fun op => decide (¬ norm op ∈ prev_tasks))).length = 1 →
        ∃ second, second ∈ operations ∧
          second ≠ (operations.filter (fun op => decide (¬ norm op ∈ prev_tasks))).headD "" ∧
          List.Perm (pickTasks norm sample choice shuffle operations prev_tasks)
            [(operations.filter (fun op => decide (¬ norm op ∈ prev_tasks))).headD "",
              second]) ∧
      ((operations.filter (fun op => decide (¬ norm op ∈ prev_tasks))).length = 0 →
        (pickTasks norm sample choice shuffle operations prev_tasks).length = 2 ∧
        (pickTasks norm sample choice shuffle operations prev_tasks).Nodup ∧
        ∀ t ∈ pickTasks norm sample choice shuffle operations prev_tasks,
          t ∈ operations)) := by
  constructor
  · unfold assign_operations
    by_cases hr : remaining.isEmpty
    · rw [if_pos hr, List.isEmpty_iff.mp hr]
      rfl
    · have hone : ¬ operations.isEmpty = true := by
        simp only [List.isEmpty_iff]
        intro h0
        rw [h0] at h2
        simp at h2
      rw [if_neg hr, if_neg hone, if_neg (by omega)]
  · intro prev_tasks
    constructor
    · intro h1
      exact pickTasks_fresh_one hc hsh h2 h1
    · intro _
      exact ⟨pickTasks_length hs hsh h2, pickTasks_nodup hs hc hsh h2 hnd,
        pickTasks_mem hs hc hsh h2⟩

/-- C5: when `run_selection` succeeds, every entry of the assignment mapping
holds exactly 2 tasks and the keys are pairwise distinct people; when the
reduced-operations flag is off or at most 2 people remain, the keys are
exactly the people remaining after help-desk selection; on a
reduced-operations run with more than 2 remaining, exactly 2 people receive
assignments, all drawn from the remaining pool, and the rest receive none. -/
theorem c5_remaining_get_two_tasks (cf norm : String → String)
    (sample : List String → Nat → List String) (choice : List String → String)
    (shuffle : List String → List String)
    (hs : SampleSpec sample) (hsh : ShuffleSpec shuffle)
    (people operations history_excluded day_excluded_lower : List String)
    (reduced_ops : Bool) (last_ops : List (String × List String))
    (sel : List String) (asg : List (String × List String))
    (h : run_selection cf norm sample choice shuffle people operations history_excluded
        day_excluded_lower reduced_ops last_ops = .ok (sel, asg)) :
    (∀ pr ∈ asg, pr.2.length = 2) ∧
    (asg.map Prod.fst).Nodup ∧
    ((reduced_ops = true ∧
        2 < (remainingKeysPre cf sample people history_excluded day_excluded_lower).length) →
      asg.length = 2 ∧ ∀ pr ∈ asg, cf pr.1 ∈
        remainingKeysPre cf sample people history_excluded day_excluded_lower) ∧
    (¬ (reduced_ops = true ∧
        2 < (remainingKeysPre cf sample people history_excluded day_excluded_lower).length) →
      (asg.map Prod.fst).map cf
        = remainingKeysPre cf sample people history_excluded day_excluded_lower) := by
  obtain ⟨hsel, hasg⟩ := run_selection_ok h
  have hkeysFin : ∀ k ∈ remainingKeysFin cf sample people history_excluded
      day_excluded_lower reduced_ops, k ∈ dictKeys (buildLookup cf people) := by
    intro k hk
    exact (availableKeys_mem (remainingKeysPre_mem (remainingKeysFin_subset hs _ hk)).1).1
  have hkeys := assign_operations_keys hasg
  refine ⟨assign_operations_tasks_length hs hsh hasg, ?_, ?_, ?_⟩
  · rw [hkeys]
    exact map_lookupD_nodup cf people hkeysFin (remainingKeysFin_nodup hs _ _ _ _)
  · rintro ⟨hro, h2⟩
    have hfin : remainingKeysFin cf sample people history_excluded day_excluded_lower
        reduced_ops
        = sample (remainingKeysPre cf sample people history_excluded day_excluded_lower) 2 := by
      unfold remainingKeysFin
      rw [if_pos (by simp [hro, h2])]
    constructor
    · have hlen := congrArg List.length hkeys
      simp only [List.length_map] at hlen
      rw [hlen, hfin]
      exact (hs _ 2 (by omega)).1
    · intro pr hpr
      have hmem : pr.1 ∈ asg.map Prod.fst := List.mem_map.mpr ⟨pr, hpr, rfl⟩
      rw [hkeys] at hmem
      have hcf := cf_mem_of_mem_map_lookupD cf people hkeysFin hmem
      exact remainingKeysFin_subset hs _ hcf
  · intro hneg
    have hfin : remainingKeysFin cf sample people history_excluded day_excluded_lower
        reduced_ops
        = remainingKeysPre cf sample people history_excluded day_excluded_lower := by
      unfold remainingKeysFin
      rw [if_neg (by simp only [Bool.and_eq_true, decide_eq_true_eq]; exact hneg)]
    rw [hkeys, hfin]
    exact map_lookupD_cf cf people
      (fun k hk => (availableKeys_mem (remainingKeysPre_mem hk).1).1)

/-- C10: whenever the configured task list holds at least 2 pairwise-distinct
entries, every pair produced by `pickTasks` — in each of its branches — and
hence every pair in a successful `assign_operations` result consists of
exactly 2 distinct tasks; only the single-task degenerate case assigns the
same task twice. -/
theorem c10_assigned_pairs_distinct (norm : String → String)
    (sample : List String → Nat → List String) (choice : List String → String)
    (shuffle : List String → List String)
    (hs : SampleSpec sample) (hc : ChoiceSpec choice) (hsh : ShuffleSpec shuffle)
    (operations : List String) (h2 : 2 ≤ operations.length) (hnd : operations.Nodup)
    (remaining : List String) (last_ops : List (String × List String)) :
    (∀ prev_tasks : List String,
      (pickTasks norm sample choice shuffle operations prev_tasks).length = 2 ∧
      (pickTasks norm sample choice shuffle operations prev_tasks).Nodup) ∧
    (∀ l, assign_operations norm sample choice shuffle remaining operations last_ops
        = .ok l → ∀ pr ∈ l, pr.2.length = 2 ∧ pr.2.Nodup) ∧
    (∀ (t : String) (remaining2 : List String) (l : List (String × List String)),
      assign_operations norm sample choice shuffle remaining2 [t] last_ops = .ok l →
      ∀ pr ∈ l, pr.2 = [t, t]) := by
  refine ⟨?_, ?_, ?_⟩
  · intro prev_tasks
    exact ⟨pickTasks_length hs hsh h2, pickTasks_nodup hs hc hsh h2 hnd⟩
  · intro l hl pr hpr
    exact ⟨assign_operations_tasks_length hs hsh hl pr hpr,
      assign_operations_tasks_nodup hs hc hsh h2 hnd hl pr hpr⟩
  · intro t remaining2 l hl pr hpr
    unfold assign_operations at hl
    by_cases hr : remaining2.isEmpty
    · rw [if_pos hr] at hl
      rw [← Except.ok.inj hl] at hpr
      exact absurd hpr (List.not_mem_nil _)
    · rw [if_neg hr, if_neg (by simp), if_pos (by simp)] at hl
      rw [← Except.ok.inj hl] at hpr
      rcases List.mem_map.mp hpr with ⟨q, _, rfl⟩
      rfl

/-! ### Concrete witnesses for the hypothesis-bearing claim theorems -/

/-- Witness for C1 at a concrete roster, exclusion set and random source. -/
theorem c1_witness :
    SampleSpec sampleTake ∧
    (fun s => s) "a" ∈ ["a"] ∧
    ((∀ sel asg, run_selection (fun s => s) (fun s => s) sampleTake choiceHead shuffleId
        ["a", "b"] ["t", "u"] [] ["a"] false [] = .ok (sel, asg) →
      ¬ "a" ∈ sel ∧ ¬ "a" ∈ asg.map Prod.fst) ∧
    ¬ "a" ∈ select_onboarding (fun s => s) sampleTake ["a", "b"] ["a"]) :=
  ⟨sampleTake_spec, by decide,
    c1_day_excluded_never_selected (fun s => s) (fun s => s) sampleTake choiceHead shuffleId
      sampleTake_spec ["a", "b"] ["t", "u"] [] ["a"] false [] "a" (by decide)⟩

/-- Witness for C2 at a concrete 3-person roster. -/
theorem c2_witness :
    SampleSpec sampleTake ∧
    ((∀ history_excluded day_excluded_lower sel asg,
      run_selection (fun s => s) (fun s => s) sampleTake choiceHead shuffleId
        ["a", "b", "c"] ["t", "u"] history_excluded day_excluded_lower false []
        = .ok (sel, asg) → sel.length ≤ 2) ∧
    (((["a", "b", "c"] : List String).map (fun s => s)).Nodup →
      2 ≤ (["a", "b", "c"] : List String).length →
      ∀ sel asg,
        run_selection (fun s => s) (fun s => s) sampleTake choiceHead shuffleId
          ["a", "b", "c"] ["t", "u"] [] [] false [] = .ok (sel, asg) →
        sel.length = 2 ∧ sel.Nodup ∧ ∀ x ∈ sel, x ∈ (["a", "b", "c"] : List String))) :=
  ⟨sampleTake_spec,
    c2_helpdesk_exactly_two (fun s => s) (fun s => s) sampleTake choiceHead shuffleId
      sampleTake_spec ["a", "b", "c"] ["t", "u"] false []⟩

/-- Witness for C3 at a concrete two-run history. -/
theorem c3_witness :
    SampleSpec sampleTake ∧
    ((∀ q, q ∈ get_excluded_people [["a", "b"], ["b", "c"]] ↔
      2 ≤ ([["a", "b"], ["b", "c"]] : List (List String)).length ∧
      q ∈ ([["a", "b"], ["b", "c"]] : List (List String)).headD [] ∧
      q ∈ ([["a", "b"], ["b", "c"]] : List (List String)).tail.headD []) ∧
    (2 ≤ (eligibleKeysPre (fun s => s) ["a", "b", "c"]
        (get_excluded_people [["a", "b"], ["b", "c"]]) []).length →
      ∀ p, (fun s => s) p ∈ (get_excluded_people [["a", "b"], ["b", "c"]]).map (fun s => s) →
      ∀ sel asg, run_selection (fun s => s) (fun s => s) sampleTake choiceHead shuffleId
          ["a", "b", "c"] ["t", "u"] (get_excluded_people [["a", "b"], ["b", "c"]]) []
          false [] = .ok (sel, asg) →
        ¬ p ∈ sel) ∧
    ((eligibleKeysPre (fun s => s) ["a", "b", "c"]
        (get_excluded_people [["a", "b"], ["b", "c"]]) []).length < 2 →
      eligibleKeys (fun s => s) ["a", "b", "c"]
          (get_excluded_people [["a", "b"], ["b", "c"]]) []
        = availableKeys (fun s => s) ["a", "b", "c"] [])) :=
  ⟨sampleTake_spec,
    c3_soft_exclusion_with_fallback (fun s => s) (fun s => s) sampleTake choiceHead shuffleId
      sampleTake_spec [["a", "b"], ["b", "c"]] ["a", "b", "c"] ["t", "u"] [] false []⟩

/-- Witness for C4 at a concrete 2-task configuration where the person has
exactly one fresh task. -/
theorem c4_witness :
    SampleSpec sampleTake ∧ ChoiceSpec choiceHead ∧ ShuffleSpec shuffleId ∧
    2 ≤ (["t", "u"] : List String).length ∧ (["t", "u"] : List String).Nodup ∧
    (assign_operations (fun s => s) sampleTake choiceHead shuffleId ["p"] ["t", "u"]
        [("p", ["t"])]
      = .ok ((["p"] : List String).map (fun person =>
          (person, pickTasks (fun s => s) sampleTake choiceHead shuffleId ["t", "u"]
            (lookupD [("p", ["t"])] person [])))) ∧
    (∀ prev_tasks : List String,
      (((["t", "u"] : List String).filter
          (fun op => decide (¬ (fun s => s) op ∈ prev_tasks))).length = 1 →
        ∃ second, second ∈ (["t", "u"] : List String) ∧
          second ≠ ((["t", "u"] : List String).filter
            (fun op => decide (¬ (fun s => s) op ∈ prev_tasks))).headD "" ∧
          List.Perm (pickTasks (fun s => s) sampleTake choiceHead shuffleId
              ["t", "u"] prev_tasks)
            [((["t", "u"] : List String).filter
              (fun op => decide (¬ (fun s => s) op ∈ prev_tasks))).headD "", second]) ∧
      (((["t", "u"] : List String).filter
          (fun op => decide (¬ (fun s => s) op ∈ prev_tasks))).length = 0 →
        (pickTasks (fun s => s) sampleTake choiceHead shuffleId
          ["t", "u"] prev_tasks).length = 2 ∧
        (pickTasks (fun s => s) sampleTake choiceHead shuffleId
          ["t", "u"] prev_tasks).Nodup ∧
        ∀ t ∈ pickTasks (fun s => s) sampleTake choiceHead shuffleId ["t", "u"] prev_tasks,
          t ∈ (["t", "u"] : List String)))) :=
  ⟨sampleTake_spec, choiceHead_spec, shuffleId_spec, by decide, by decide,
    c4_fresh_task_branches (fun s => s) sampleTake choiceHead shuffleId
      sampleTake_spec choiceHead_spec shuffleId_spec ["t", "u"] (by decide) (by decide)
      ["p"] [("p", ["t"])]⟩

/-- Witness for C5 at a concrete run that succeeds (computed outcome:
help-desk `["a", "b"]`, operations `[("c", ["t", "u"])]`). -/
theorem c5_witness :
    SampleSpec sampleTake ∧ ShuffleSpec shuffleId ∧
    run_selection (fun s => s) (fun s => s) sampleTake choiceHead shuffleId
      ["a", "b", "c"] ["t", "u"] [] [] false []
      = .ok (["a", "b"], [("c", ["t", "u"])]) ∧
    ((∀ pr ∈ ([("c", ["t", "u"])] : List (String × List String)), pr.2.length = 2) ∧
    (([("c", ["t", "u"])] : List (String × List String)).map Prod.fst).Nodup ∧
    ((false = true ∧
        2 < (remainingKeysPre (fun s => s) sampleTake ["a", "b", "c"] [] []).length) →
      ([("c", ["t", "u"])] : List (String × List String)).length = 2 ∧
      ∀ pr ∈ ([("c", ["t", "u"])] : List (String × List String)),
        (fun s => s) pr.1 ∈ remainingKeysPre (fun s => s) sampleTake ["a", "b", "c"] [] []) ∧
    (¬ (false = true ∧
        2 < (remainingKeysPre (fun s => s) sampleTake ["a", "b", "c"] [] []).length) →
      ((([("c", ["t", "u"])] : List (String × List String)).map Prod.fst).map (fun s => s))
        = remainingKeysPre (fun s => s) sampleTake ["a", "b", "c"] [] [])) :=
  ⟨sampleTake_spec, shuffleId_spec, rfl,
    c5_remaining_get_two_tasks (fun s => s) (fun s => s) sampleTake choiceHead shuffleId
      sampleTake_spec shuffleId_spec ["a", "b", "c"] ["t", "u"] [] [] false []
      ["a", "b"] [("c", ["t", "u"])] rfl⟩

/-- Witness for C10 at a concrete 2-task configuration. -/
theorem c10_witness :
    SampleSpec sampleTake ∧ ChoiceSpec choiceHead ∧ ShuffleSpec shuffleId ∧
    2 ≤ (["t", "u"] : List String).length ∧ (["t", "u"] : List String).Nodup ∧
    ((∀ prev_tasks : List String,
      (pickTasks (fun s => s) sampleTake choiceHead shuffleId
        ["t", "u"] prev_tasks).length = 2 ∧
      (pickTasks (fun s => s) sampleTake choiceHead shuffleId ["t", "u"] prev_tasks).Nodup) ∧
    (∀ l, assign_operations (fun s => s) sampleTake choiceHead shuffleId ["p"] ["t", "u"] []
        = .ok l → ∀ pr ∈ l, pr.2.length = 2 ∧ pr.2.Nodup) ∧
    (∀ (t : String) (remaining2 : List String) (l : List (String × List String)),
      assign_operations (fun s => s) sampleTake choiceHead shuffleId remaining2 [t] []
        = .ok l → ∀ pr ∈ l, pr.2 = [t, t])) :=
  ⟨sampleTake_spec, choiceHead_spec, shuffleId_spec, by decide, by decide,
    c10_assigned_pairs_distinct (fun s => s) sampleTake choiceHead shuffleId
      sampleTake_spec choiceHead_spec shuffleId_spec ["t", "u"] (by decide) (by decide)
      ["p"] []⟩

end RotationBot
